import Mathlib

/-!
Verification of the freegeoip in-memory lookup cache (`cache.go`) and the
named-counter registry.  The Go code is shallowly embedded: Go maps become
association lists with first-match lookup (insertion overwrites in place),
`uint32` values become `Nat` (only compared, never computed with modulo
overflow), Go `float32` latitude/longitude are only ever copied by the code,
never computed with, so they are carried as `Int` payloads, and the stateful
`Update` writing through the result pointer becomes a function returning the
new record.
-/

namespace FreeGeo

/-- Association-list lookup, first match wins (Go map read). -/
def lookupA {α β : Type} [DecidableEq α] : List (α × β) → α → Option β
  | [], _ => none
  | (k, v) :: rest, key => if key = k then some v else lookupA rest key

/-- Association-list insert, overwriting the first binding of the key in
place, appending otherwise (Go map write). -/
def insertA {α β : Type} [DecidableEq α] : List (α × β) → α → β → List (α × β)
  | [], k, v => [(k, v)]
  | (k', v') :: rest, k, v =>
      if k = k' then (k, v) :: rest else (k', v') :: insertA rest k v

/-- Model of `type Location struct` of cache.go. -/
structure Location where
  CountryCode : String
  RegionCode : String
  CityName : String
  ZipCode : String
  Latitude : Int
  Longitude : Int
  MetroCode : String
  AreaCode : String
deriving DecidableEq

/-- Model of `type RegionKey struct` of cache.go. -/
structure RegionKey where
  CountryCode : String
  RegionCode : String
deriving DecidableEq

/-- Model of `type Block struct` of cache.go: one city-block row. -/
structure Block where
  IpStart : Nat
  IpEnd : Nat
  LocId : Nat
deriving DecidableEq

/-- The zero `Block`, standing for Go's zero value. -/
def blk0 : Block := ⟨0, 0, 0⟩

/-- Model of `type Cache struct` of cache.go; the four Go maps/slices. -/
structure Cache where
  Country : List (String × String)
  Region : List (RegionKey × String)
  CityLocation : List (Nat × Location)
  CityBlock : List Block

/-- Model of `type GeoIP struct` of cache.go; field defaults are Go's zero values. -/
structure GeoIP where
  Ip : String
  CountryCode : String := ""
  CountryName : String := ""
  RegionCode : String := ""
  RegionName : String := ""
  CityName : String := ""
  ZipCode : String := ""
  Latitude : Int := 0
  Longitude : Int := 0
  MetroCode : String := ""
  AreaCode : String := ""
deriving DecidableEq

/-- Bitwise AND of the low `fuel` bits, by structural recursion so that the
kernel evaluates it on concrete inputs. -/
def landAux : Nat → Nat → Nat → Nat
  | 0, _, _ => 0
  | fuel + 1, a, b =>
      (if a % 2 = 1 ∧ b % 2 = 1 then 1 else 0) + 2 * landAux fuel (a / 2) (b / 2)

/-- 32-bit bitwise AND, as applied bytewise by `net.IPNet.Contains`. -/
def land32 (a b : Nat) : Nat := landAux 32 a b

/-- A `net.IPNet`: base address and mask, both 32-bit big-endian numbers. -/
structure IPNet where
  base : Nat
  mask : Nat
deriving DecidableEq

/-- Model of `net.IPNet.Contains`: the address agrees with the base on the masked
bits. -/
def ipnetContains (n : IPNet) (ip : Nat) : Bool :=
  land32 ip n.mask == land32 n.base n.mask

/-- Big-endian numeric value of the dotted quad a.b.c.d. -/
def octets (a b c d : Nat) : Nat := ((a * 256 + b) * 256 + c) * 256 + d

/-- Model of `var reservedIPs`: the sixteen hard-coded reserved CIDR blocks of
cache.go, in source order. -/
def reservedIPs : List IPNet :=
  [ ⟨octets 0 0 0 0, octets 255 0 0 0⟩
  , ⟨octets 10 0 0 0, octets 255 0 0 0⟩
  , ⟨octets 100 64 0 0, octets 255 192 0 0⟩
  , ⟨octets 127 0 0 0, octets 255 0 0 0⟩
  , ⟨octets 169 254 0 0, octets 255 255 0 0⟩
  , ⟨octets 172 16 0 0, octets 255 240 0 0⟩
  , ⟨octets 192 0 0 0, octets 255 255 255 248⟩
  , ⟨octets 192 0 2 0, octets 255 255 255 0⟩
  , ⟨octets 192 88 99 0, octets 255 255 255 0⟩
  , ⟨octets 192 168 0 0, octets 255 255 0 0⟩
  , ⟨octets 198 18 0 0, octets 255 254 0 0⟩
  , ⟨octets 198 51 100 0, octets 255 255 255 0⟩
  , ⟨octets 203 0 113 0, octets 255 255 255 0⟩
  , ⟨octets 224 0 0 0, octets 240 0 0 0⟩
  , ⟨octets 240 0 0 0, octets 240 0 0 0⟩
  , ⟨octets 255 255 255 255, octets 255 255 255 255⟩ ]

/-- The reserved-range loop of `Query` (first match short-circuits; for the
resulting boolean this is `List.any`). -/
def isReserved (ip : Nat) : Bool :=
  reservedIPs.any (fun n => ipnetContains n ip)

/-- Model of `net.IP.String()` on an IPv4 address given as its big-endian number. -/
def ipString (ip : Nat) : String :=
  toString (ip / 16777216 % 256) ++ "." ++ toString (ip / 65536 % 256) ++ "."
    ++ toString (ip / 256 % 256) ++ "." ++ toString (ip % 256)

/-- The linear scan of `Query` (cache.go lines 198-203): index of the first
block whose `IpStart` exceeds `nIP`, or the length if none does. -/
def findBreak : List Block → Nat → Nat
  | [], _ => 0
  | b :: rest, nIP => if nIP < b.IpStart then 0 else findBreak rest nIP + 1

/-- Model of `func (cache *Cache) Update` of cache.go: join the location id through
the city-location, country and region tables into the result record; a Go
map miss yields the zero value, the empty string. -/
def Cache.Update (cache : Cache) (geoip : GeoIP) (locId : Nat) : GeoIP :=
  match lookupA cache.CityLocation locId with
  | none => geoip
  | some city =>
    { geoip with
      CountryCode := city.CountryCode
      CountryName := (lookupA cache.Country city.CountryCode).getD ""
      RegionCode := city.RegionCode
      RegionName := (lookupA cache.Region ⟨city.CountryCode, city.RegionCode⟩).getD ""
      CityName := city.CityName
      ZipCode := city.ZipCode
      Latitude := city.Latitude
      Longitude := city.Longitude
      MetroCode := city.MetroCode
      AreaCode := city.AreaCode }

/-- Model of `func (cache *Cache) Query` of cache.go.  `ip` is the `net.IP` argument
(as its big-endian number, used for the reserved check and the echo), `nIP`
the separately passed numeric form used by the range search.  The candidate
access `cache.CityBlock[n-1]` is rendered with `getElem?`; the `none` branch
is unreachable (see the index-safety theorem). -/
def Cache.Query (cache : Cache) (ip nIP : Nat) : GeoIP :=
  let geoip : GeoIP := { Ip := ipString ip }
  if isReserved ip then
    { geoip with CountryCode := "RD", CountryName := "Reserved" }
  else
    let n := findBreak cache.CityBlock nIP
    if 0 < n then
      match cache.CityBlock[n - 1]? with
      | some b => if nIP ≤ b.IpEnd then cache.Update geoip b.LocId else geoip
      | none => geoip
    else geoip

/-- The ordering `sort.Sort` applies through `BlockList.Less` (`IpStart i <
IpStart j`): sorting with that strict `Less` produces a list sorted under
the reflexive closure, ascending by `IpStart`. -/
def blockLE (a b : Block) : Prop := a.IpStart ≤ b.IpStart

instance : DecidableRel blockLE := fun a b => Nat.decLe a.IpStart b.IpStart

instance : IsTotal Block blockLE := ⟨fun a b => Nat.le_total a.IpStart b.IpStart⟩

instance : IsTrans Block blockLE := ⟨fun _ _ _ h h' => Nat.le_trans h h'⟩

/-- Model of `func NewCache` of cache.go, abstracted over the four row streams read
from the SQLite database (the SQL plumbing is outside the model): build the
three maps by row-order insertion and sort the city blocks by `IpStart`
ascending (`sort.Sort` is an unstable comparison sort; any sort realising
the `BlockList.Less` order is a faithful model of it). -/
def NewCache (countries : List (String × String))
    (regions : List (String × String × String))
    (locations : List (Nat × Location)) (blocks : List Block) : Cache :=
  { Country := countries.foldl (fun m r => insertA m r.1 r.2) []
  , Region := regions.foldl (fun m r => insertA m ⟨r.1, r.2.1⟩ r.2.2) []
  , CityLocation := locations.foldl (fun m r => insertA m r.1 r.2) []
  , CityBlock := List.insertionSort blockLE blocks }

/-- The `IpStart` of the i-th block (Go's zero value past the end). -/
def startAt (l : List Block) (i : Nat) : Nat := (l.getD i blk0).IpStart

/-- The `IpEnd` of the i-th block (Go's zero value past the end). -/
def endAt (l : List Block) (i : Nat) : Nat := (l.getD i blk0).IpEnd

/-- The block list is sorted ascending by `IpStart` (index form, decidable). -/
def sortedStarts (l : List Block) : Prop :=
  ∀ j, j < l.length → ∀ i, i ≤ j → startAt l i ≤ startAt l j

instance (l : List Block) : Decidable (sortedStarts l) := by
  unfold sortedStarts; infer_instance

/-- Adjacent entries do not overlap: each block ends before the next starts. -/
def disjointAdj (l : List Block) : Prop :=
  ∀ i, i < l.length - 1 → endAt l i < startAt l (i + 1)

instance (l : List Block) : Decidable (disjointAdj l) := by
  unfold disjointAdj; infer_instance

/-- Lower-bound binary search over the sorted range starts, the spec's
reference strategy: first index in `[lo, hi)` whose `IpStart` exceeds `x`,
assuming everything before `lo` is ≤ `x` and everything from `hi` on is
greater. -/
def lowerBoundAux (l : List Block) (x : Nat) (lo hi : Nat) : Nat :=
  if lo < hi then
    if x < startAt l ((lo + hi) / 2) then lowerBoundAux l x lo ((lo + hi) / 2)
    else lowerBoundAux l x ((lo + hi) / 2 + 1) hi
  else lo
termination_by hi - lo
decreasing_by
  all_goals omega

/-- Lower-bound binary search over the whole list: first index whose
`IpStart` exceeds `x`. -/
def lowerBound (l : List Block) (x : Nat) : Nat := lowerBoundAux l x 0 l.length

/-- Two city-block rows describe disjoint address ranges. -/
def rangesDisjoint (a b : Block) : Prop := a.IpEnd < b.IpStart ∨ b.IpEnd < a.IpStart

instance : DecidableRel rangesDisjoint := fun a b =>
  inferInstanceAs (Decidable (a.IpEnd < b.IpStart ∨ b.IpEnd < a.IpStart))

/-- Model of `func (cache *Cache) Update` with the cache state threaded explicitly:
the Go procedure reads the cache through a pointer receiver and writes only
to the fresh result record. -/
def Cache.UpdateS (cache : Cache) (geoip : GeoIP) (locId : Nat) : GeoIP × Cache :=
  match lookupA cache.CityLocation locId with
  | none => (geoip, cache)
  | some city =>
    ({ geoip with
       CountryCode := city.CountryCode
       CountryName := (lookupA cache.Country city.CountryCode).getD ""
       RegionCode := city.RegionCode
       RegionName := (lookupA cache.Region ⟨city.CountryCode, city.RegionCode⟩).getD ""
       CityName := city.CityName
       ZipCode := city.ZipCode
       Latitude := city.Latitude
       Longitude := city.Longitude
       MetroCode := city.MetroCode
       AreaCode := city.AreaCode }, cache)

/-- Model of `func (cache *Cache) Query` with the cache state threaded explicitly
through every step, including the `Update` join. -/
def Cache.QueryS (cache : Cache) (ip nIP : Nat) : GeoIP × Cache :=
  let geoip : GeoIP := { Ip := ipString ip }
  if isReserved ip then
    ({ geoip with CountryCode := "RD", CountryName := "Reserved" }, cache)
  else
    let n := findBreak cache.CityBlock nIP
    if 0 < n then
      match cache.CityBlock[n - 1]? with
      | some b =>
          if nIP ≤ b.IpEnd then cache.UpdateS geoip b.LocId else (geoip, cache)
      | none => (geoip, cache)
    else (geoip, cache)

/-- Two's-complement wraparound of a 64-bit Go `int`: the unique value in
[-9223372036854775808, 9223372036854775808) congruent mod 2^64, as produced
by Go's `++` and `--` at the integer boundary. -/
def wrap64 (z : Int) : Int :=
  (z + 9223372036854775808) % 18446744073709551616 - 9223372036854775808

/-- Model of `type MetricRegistry struct` of the counter file.  The counters
are Go `int` (64-bit) values, stepped with two's-complement wraparound
(`wrap64`); the map of counter pointers becomes a map of values, a cell
being addressed by its name (each name owns its own fresh cell). -/
structure MetricRegistry where
  Appname : String
  Node : String
  Metrics : List (String × Int)
deriving DecidableEq

/-- Model of `func (m MetricRegistry) NewCounter`: bind a fresh cell holding 0 to the
name; the Go function returns the pointer to that cell. -/
def MetricRegistry.NewCounter (m : MetricRegistry) (name : String) : MetricRegistry :=
  { m with Metrics := insertA m.Metrics name 0 }

/-- Model of `func (m MetricRegistry) GetCounter`: the registry state after the
access, the counter materialized when the name was unbound; the pointer the
Go function returns is the cell named `name` in this state. -/
def MetricRegistry.GetCounter (m : MetricRegistry) (name : String) : MetricRegistry :=
  match lookupA m.Metrics name with
  | some _ => m
  | none => m.NewCounter name

/-- Dereference of the cell named `name`. -/
def MetricRegistry.counterVal (m : MetricRegistry) (name : String) : Int :=
  (lookupA m.Metrics name).getD 0

/-- Assignment through the pointer to the cell named `name`. -/
def MetricRegistry.setCounter (m : MetricRegistry) (name : String) (v : Int) :
    MetricRegistry :=
  { m with Metrics := insertA m.Metrics name v }

/-- Model of `func (m MetricRegistry) Decr`: `*(m.GetCounter(name))--`,
wrapping at the 64-bit boundary as Go `int` decrement does. -/
def MetricRegistry.Decr (m : MetricRegistry) (name : String) : MetricRegistry :=
  (m.GetCounter name).setCounter name (wrap64 ((m.GetCounter name).counterVal name - 1))

/-- A concrete block covering 8.8.8.0 - 8.8.8.255, mapped to location 42. -/
def b88 : Block := ⟨octets 8 8 8 0, octets 8 8 8 255, 42⟩

/-- A concrete block covering 9.0.0.0 - 9.0.0.255, mapped to location 7. -/
def b9 : Block := ⟨octets 9 0 0 0, octets 9 0 0 255, 7⟩

/-- A concrete city location joined through country and region. -/
def loc42 : Location := ⟨"US", "CA", "Example", "90001", 34, -118, "803", "310"⟩

/-- A concrete city location whose codes miss the country and region tables. -/
def locMiss : Location := ⟨"ZZ", "QQ", "Nowhere", "", 0, 0, "", ""⟩

/-- A concrete populated cache for the concrete instantiation theorems:
one location joined through country and region, one block pointing at a
missing location id.  The block list is sorted and disjoint. -/
def exCache : Cache :=
  { Country := [("US", "United States")]
  , Region := [(⟨"US", "CA"⟩, "California")]
  , CityLocation := [(42, loc42)]
  , CityBlock := [b88, b9] }

/-- A concrete cache whose only location carries codes that miss both the
country and the region table. -/
def exCacheMiss : Cache :=
  { Country := []
  , Region := []
  , CityLocation := [(42, locMiss)]
  , CityBlock := [b88] }

lemma startAt_nil (i : Nat) : startAt [] i = 0 := by
  simp [startAt, blk0]

lemma startAt_cons_zero (b : Block) (l : List Block) : startAt (b :: l) 0 = b.IpStart := rfl

lemma startAt_cons_succ (b : Block) (l : List Block) (i : Nat) :
    startAt (b :: l) (i + 1) = startAt l i := rfl

lemma startAt_eq_getElem {l : List Block} {i : Nat} (h : i < l.length) :
    startAt l i = l[i].IpStart := by
  simp [startAt, List.getD_eq_getElem?_getD, List.getElem?_eq_getElem h]

lemma endAt_eq_getElem {l : List Block} {i : Nat} (h : i < l.length) :
    endAt l i = l[i].IpEnd := by
  simp [endAt, List.getD_eq_getElem?_getD, List.getElem?_eq_getElem h]

lemma fb_le (l : List Block) (x : Nat) : findBreak l x ≤ l.length := by
  induction l with
  | nil => simp [findBreak]
  | cons b rest ih =>
      simp only [findBreak, List.length_cons]
      split
      · omega
      · omega

lemma fb_lt_start (l : List Block) (x : Nat) :
    ∀ i, i < findBreak l x → startAt l i ≤ x := by
  induction l with
  | nil => simp [findBreak]
  | cons b rest ih =>
      intro i hi
      simp only [findBreak] at hi
      split at hi
      · omega
      · match i with
        | 0 => rw [startAt_cons_zero]; omega
        | i + 1 => rw [startAt_cons_succ]; exact ih i (by omega)

lemma fb_break (l : List Block) (x : Nat) :
    findBreak l x < l.length → x < startAt l (findBreak l x) := by
  induction l with
  | nil => simp [findBreak]
  | cons b rest ih =>
      intro h
      by_cases hlt : x < b.IpStart
      · simp only [findBreak, if_pos hlt]
        rw [startAt_cons_zero]; exact hlt
      · simp only [findBreak, if_neg hlt, List.length_cons] at h ⊢
        rw [startAt_cons_succ]
        exact ih (by omega)

lemma fb_unique (l : List Block) (x k : Nat) (hk : k ≤ l.length)
    (h2 : ∀ i, i < k → startAt l i ≤ x) (h3 : k < l.length → x < startAt l k) :
    findBreak l x = k := by
  rcases Nat.lt_trichotomy (findBreak l x) k with h | h | h
  · exfalso
    have hfl : findBreak l x < l.length := by omega
    have := fb_break l x hfl
    have := h2 (findBreak l x) h
    omega
  · exact h
  · exfalso
    have hkl : k < l.length := by
      have := fb_le l x
      omega
    have := fb_lt_start l x k h
    have := h3 hkl
    omega

lemma lbAux_spec (l : List Block) (x : Nat) (hs : sortedStarts l) :
    ∀ d lo hi, hi - lo = d → lo ≤ hi → hi ≤ l.length →
      (∀ i, i < lo → startAt l i ≤ x) →
      (∀ i, hi ≤ i → i < l.length → x < startAt l i) →
      lo ≤ lowerBoundAux l x lo hi ∧ lowerBoundAux l x lo hi ≤ hi ∧
      (∀ i, i < lowerBoundAux l x lo hi → startAt l i ≤ x) ∧
      (lowerBoundAux l x lo hi < l.length → x < startAt l (lowerBoundAux l x lo hi)) := by
  intro d
  induction d using Nat.strong_induction_on with
  | _ d ih =>
    intro lo hi hd hll hhl hlow hhigh
    rw [lowerBoundAux]
    by_cases h : lo < hi
    · rw [if_pos h]
      by_cases hx : x < startAt l ((lo + hi) / 2)
      · rw [if_pos hx]
        have hhigh' : ∀ i, (lo + hi) / 2 ≤ i → i < l.length → x < startAt l i := by
          intro i hmi hil
          have hsi := hs i hil ((lo + hi) / 2) hmi
          omega
        obtain ⟨a1, a2, a3, a4⟩ :=
          ih ((lo + hi) / 2 - lo) (by omega) lo ((lo + hi) / 2) rfl (by omega) (by omega)
            hlow hhigh'
        exact ⟨a1, by omega, a3, a4⟩
      · rw [if_neg hx]
        have hmidlen : (lo + hi) / 2 < l.length := by omega
        have hlow' : ∀ i, i < (lo + hi) / 2 + 1 → startAt l i ≤ x := by
          intro i hi'
          have hsi := hs ((lo + hi) / 2) hmidlen i (by omega)
          omega
        obtain ⟨a1, a2, a3, a4⟩ :=
          ih (hi - ((lo + hi) / 2 + 1)) (by omega) ((lo + hi) / 2 + 1) hi rfl (by omega) hhl
            hlow' hhigh
        exact ⟨by omega, a2, a3, a4⟩
    · rw [if_neg h]
      have heq : lo = hi := by omega
      exact ⟨le_rfl, by omega, hlow, fun hlen => hhigh lo (by omega) hlen⟩

lemma lowerBound_eq_findBreak (l : List Block) (x : Nat) (hs : sortedStarts l) :
    lowerBound l x = findBreak l x := by
  rw [lowerBound]
  obtain ⟨a1, a2, a3, a4⟩ :=
    lbAux_spec l x hs l.length 0 l.length (by omega) (by omega) le_rfl (by omega)
      (fun i hi hi' => by omega)
  exact (fb_unique l x _ a2 a3 a4).symm

lemma fb_of_contains (l : List Block) (x : Nat) (b : Block) (j : Nat)
    (hs : sortedStarts l) (hd : disjointAdj l) (hj : j < l.length) (hb : l[j] = b)
    (h1 : b.IpStart ≤ x) (h2 : x ≤ b.IpEnd) : findBreak l x = j + 1 := by
  apply fb_unique l x (j + 1) (by omega)
  · intro i hi
    have hij := hs j hj i (by omega)
    have hsj : startAt l j = b.IpStart := by rw [startAt_eq_getElem hj, hb]
    omega
  · intro hjl
    have hdj := hd j (by omega)
    have hej : endAt l j = b.IpEnd := by rw [endAt_eq_getElem hj, hb]
    omega

lemma query_eq_update (c : Cache) (ip nIP : Nat) (b : Block)
    (hs : sortedStarts c.CityBlock) (hd : disjointAdj c.CityBlock)
    (hr : isReserved ip = false) (hm : b ∈ c.CityBlock)
    (h1 : b.IpStart ≤ nIP) (h2 : nIP ≤ b.IpEnd) :
    c.Query ip nIP = c.Update { Ip := ipString ip } b.LocId := by
  obtain ⟨j, hj, hbj⟩ := List.mem_iff_getElem.mp hm
  have hfb : findBreak c.CityBlock nIP = j + 1 :=
    fb_of_contains _ _ _ _ hs hd hj hbj h1 h2
  have h01 : 0 < j + 1 := by omega
  simp only [Cache.Query, hr, Bool.false_eq_true, if_false, hfb, if_pos h01,
    Nat.add_sub_cancel, List.getElem?_eq_getElem hj, hbj, h2, if_true]

lemma rangesDisjoint_symm {a b : Block} (h : rangesDisjoint a b) : rangesDisjoint b a :=
  h.elim Or.inr Or.inl

lemma sortedStarts_of_pairwise {l : List Block} (h : List.Pairwise blockLE l) :
    sortedStarts l := by
  intro j hj i hij
  rcases Nat.lt_or_ge i j with hlt | hge
  · have hb := List.pairwise_iff_getElem.mp h i j (by omega) hj hlt
    rw [startAt_eq_getElem (by omega), startAt_eq_getElem hj]
    exact hb
  · have hij' : i = j := by omega
    subst hij'
    exact le_rfl

lemma disjointAdj_of_sorted_pairwise {l : List Block} (hs : sortedStarts l)
    (hne : ∀ b ∈ l, b.IpStart ≤ b.IpEnd) (hdisj : List.Pairwise rangesDisjoint l) :
    disjointAdj l := by
  intro i hi
  have hi1 : i + 1 < l.length := by omega
  have hij := List.pairwise_iff_getElem.mp hdisj i (i + 1) (by omega) hi1 (by omega)
  rw [endAt_eq_getElem (show i < l.length by omega), startAt_eq_getElem hi1]
  rcases hij with h | h
  · exact h
  · exfalso
    have hsort := hs (i + 1) hi1 i (by omega)
    rw [startAt_eq_getElem (show i < l.length by omega), startAt_eq_getElem hi1] at hsort
    have hb := hne (l[i + 1]) (List.getElem_mem hi1)
    omega

lemma newCache_cityBlock (countries regions locations blocks) :
    (NewCache countries regions locations blocks).CityBlock =
      List.insertionSort blockLE blocks := rfl

lemma newCache_sorted (countries regions locations blocks) :
    sortedStarts (NewCache countries regions locations blocks).CityBlock :=
  sortedStarts_of_pairwise (List.sorted_insertionSort blockLE blocks)

lemma queryS_spec (c : Cache) (ip nIP : Nat) :
    (c.QueryS ip nIP).2 = c ∧ (c.QueryS ip nIP).1 = c.Query ip nIP := by
  unfold Cache.QueryS Cache.Query Cache.UpdateS Cache.Update
  dsimp only
  split
  · exact ⟨rfl, rfl⟩
  · split
    · split
      · split
        · split
          · exact ⟨rfl, rfl⟩
          · exact ⟨rfl, rfl⟩
        · exact ⟨rfl, rfl⟩
      · exact ⟨rfl, rfl⟩
    · exact ⟨rfl, rfl⟩

/-- C1: for every non-reserved address whose numeric value lies within
`[IpStart, IpEnd]` of some block of the loaded index (end inclusive; the
index satisfying the loader's sortedness and disjointness invariant),
`Query` returns a result whose countryCode, regionCode, cityName, zipCode,
latitude, longitude, metroCode and areaCode equal the fields of the
`CityLocation` entry for that block's location id, with countryName
resolved from the country table and regionName from the region table. -/
theorem query_hit_returns_location (c : Cache) (ip nIP : Nat) (b : Block) (city : Location)
    (hs : sortedStarts c.CityBlock) (hd : disjointAdj c.CityBlock)
    (hr : isReserved ip = false) (hm : b ∈ c.CityBlock)
    (h1 : b.IpStart ≤ nIP) (h2 : nIP ≤ b.IpEnd)
    (hc : lookupA c.CityLocation b.LocId = some city) :
    (c.Query ip nIP).CountryCode = city.CountryCode ∧
    (c.Query ip nIP).CountryName = (lookupA c.Country city.CountryCode).getD "" ∧
    (c.Query ip nIP).RegionCode = city.RegionCode ∧
    (c.Query ip nIP).RegionName =
      (lookupA c.Region ⟨city.CountryCode, city.RegionCode⟩).getD "" ∧
    (c.Query ip nIP).CityName = city.CityName ∧
    (c.Query ip nIP).ZipCode = city.ZipCode ∧
    (c.Query ip nIP).Latitude = city.Latitude ∧
    (c.Query ip nIP).Longitude = city.Longitude ∧
    (c.Query ip nIP).MetroCode = city.MetroCode ∧
    (c.Query ip nIP).AreaCode = city.AreaCode := by
  rw [query_eq_update c ip nIP b hs hd hr hm h1 h2]
  simp [Cache.Update, hc]

/-- Concrete instantiation of the in-range query theorem on `exCache` at
address 8.8.8.8. -/
theorem query_hit_returns_location_witness :
    lookupA exCache.CityLocation b88.LocId = some loc42 ∧
    ((exCache.Query (octets 8 8 8 8) (octets 8 8 8 8)).CountryCode = loc42.CountryCode ∧
     (exCache.Query (octets 8 8 8 8) (octets 8 8 8 8)).CountryName =
       (lookupA exCache.Country loc42.CountryCode).getD "" ∧
     (exCache.Query (octets 8 8 8 8) (octets 8 8 8 8)).RegionCode = loc42.RegionCode ∧
     (exCache.Query (octets 8 8 8 8) (octets 8 8 8 8)).RegionName =
       (lookupA exCache.Region ⟨loc42.CountryCode, loc42.RegionCode⟩).getD "" ∧
     (exCache.Query (octets 8 8 8 8) (octets 8 8 8 8)).CityName = loc42.CityName ∧
     (exCache.Query (octets 8 8 8 8) (octets 8 8 8 8)).ZipCode = loc42.ZipCode ∧
     (exCache.Query (octets 8 8 8 8) (octets 8 8 8 8)).Latitude = loc42.Latitude ∧
     (exCache.Query (octets 8 8 8 8) (octets 8 8 8 8)).Longitude = loc42.Longitude ∧
     (exCache.Query (octets 8 8 8 8) (octets 8 8 8 8)).MetroCode = loc42.MetroCode ∧
     (exCache.Query (octets 8 8 8 8) (octets 8 8 8 8)).AreaCode = loc42.AreaCode) :=
  ⟨by decide,
   query_hit_returns_location exCache (octets 8 8 8 8) (octets 8 8 8 8) b88 loc42
     (by decide) (by decide) (by decide) (by decide) (by decide) (by decide) (by decide)⟩

/-- C2 counterexample: for the reserved address 10.1.2.3, `Query` populates
more than the country code — the country name comes back "Reserved", so
"countryCode RD and no other field populated" fails as stated. -/
theorem query_reserved_cex :
    (Cache.Query ⟨[], [], [], []⟩ (octets 10 1 2 3) (octets 10 1 2 3)).CountryCode = "RD" ∧
    (Cache.Query ⟨[], [], [], []⟩ (octets 10 1 2 3) (octets 10 1 2 3)).CountryName ≠ "" := by
  decide

/-- C2 (amended): for every address contained in one of the hard-coded
reserved CIDR blocks, `Query` returns countryCode "RD", countryName
"Reserved" and the echoed address, every other field empty, regardless of
what the loaded index contains for that address. -/
theorem query_reserved_short_circuits (c : Cache) (ip nIP : Nat) (net : IPNet)
    (hn : net ∈ reservedIPs) (hc : ipnetContains net ip = true) :
    c.Query ip nIP = { Ip := ipString ip, CountryCode := "RD", CountryName := "Reserved" } := by
  have hres : isReserved ip = true := by
    unfold isReserved
    exact List.any_eq_true.mpr ⟨net, hn, hc⟩
  simp [Cache.Query, hres]

/-- Concrete instantiation of the reserved short-circuit theorem at
10.1.2.3, against the populated `exCache`. -/
theorem query_reserved_short_circuits_witness :
    (⟨octets 10 0 0 0, octets 255 0 0 0⟩ : IPNet) ∈ reservedIPs ∧
    exCache.Query (octets 10 1 2 3) (octets 10 1 2 3) =
      { Ip := ipString (octets 10 1 2 3), CountryCode := "RD", CountryName := "Reserved" } :=
  ⟨by decide,
   query_reserved_short_circuits exCache (octets 10 1 2 3) (octets 10 1 2 3)
     ⟨octets 10 0 0 0, octets 255 0 0 0⟩ (by decide) (by decide)⟩

/-- C3: for every non-reserved address that precedes the first loaded range,
or whose candidate range (the last one with `IpStart` ≤ the address, every
later range starting above it) has `IpEnd` strictly below the address,
`Query` returns a result in which only the echoed address is populated —
an ordinary result of the total function, not an error. -/
theorem query_gap_address_only (c : Cache) (ip nIP : Nat)
    (hs : sortedStarts c.CityBlock) (hr : isReserved ip = false)
    (hgap :
      (∀ j, j < c.CityBlock.length → nIP < startAt c.CityBlock j) ∨
      (∃ k, k < c.CityBlock.length ∧ startAt c.CityBlock k ≤ nIP ∧
        (∀ j, j < c.CityBlock.length → k < j → nIP < startAt c.CityBlock j) ∧
        endAt c.CityBlock k < nIP)) :
    c.Query ip nIP = { Ip := ipString ip } := by
  rcases hgap with h | ⟨k, hk, hks, hkafter, hke⟩
  · have hfb : findBreak c.CityBlock nIP = 0 :=
      fb_unique _ _ 0 (by omega) (fun i hi => by omega) (fun hl => h 0 hl)
    simp [Cache.Query, hr, hfb]
  · have hfb : findBreak c.CityBlock nIP = k + 1 := by
      apply fb_unique _ _ _ (by omega)
      · intro i hi
        have hsk := hs k hk i (by omega)
        omega
      · intro hkl
        exact hkafter (k + 1) hkl (by omega)
    have h01 : 0 < k + 1 := by omega
    rw [endAt_eq_getElem hk] at hke
    simp only [Cache.Query, hr, Bool.false_eq_true, if_false, hfb, if_pos h01,
      Nat.add_sub_cancel, List.getElem?_eq_getElem hk]
    simp [Nat.not_le_of_lt hke]

/-- Concrete instantiation of the gap theorem on `exCache` at 8.9.0.0,
which falls strictly between the two loaded ranges. -/
theorem query_gap_address_only_witness :
    isReserved (octets 8 9 0 0) = false ∧
    exCache.Query (octets 8 9 0 0) (octets 8 9 0 0) = { Ip := ipString (octets 8 9 0 0) } :=
  ⟨by decide,
   query_gap_address_only exCache (octets 8 9 0 0) (octets 8 9 0 0) (by decide) (by decide)
     (Or.inr ⟨0, by decide, by decide, by decide, by decide⟩)⟩

/-- C4: on a block list sorted ascending by `IpStart`, the linear scan of
`Query` (advance to the first start above the address, step back one) and a
lower-bound binary search over the sorted starts compute the same break
index, hence select the same candidate entry: the two search strategies are
behaviorally identical. -/
theorem linear_scan_eq_binary_search (l : List Block) (x : Nat) (hs : sortedStarts l) :
    lowerBound l x = findBreak l x ∧
    l[lowerBound l x - 1]? = l[findBreak l x - 1]? := by
  have h := lowerBound_eq_findBreak l x hs
  exact ⟨h, by rw [h]⟩

/-- Concrete instantiation of the search-equivalence theorem on the block
list of `exCache` at the address 8.8.8.8. -/
theorem linear_scan_eq_binary_search_witness :
    sortedStarts exCache.CityBlock ∧
    (lowerBound exCache.CityBlock (octets 8 8 8 8) =
       findBreak exCache.CityBlock (octets 8 8 8 8) ∧
     exCache.CityBlock[lowerBound exCache.CityBlock (octets 8 8 8 8) - 1]? =
       exCache.CityBlock[findBreak exCache.CityBlock (octets 8 8 8 8) - 1]?) :=
  ⟨by decide, linear_scan_eq_binary_search exCache.CityBlock (octets 8 8 8 8) (by decide)⟩

/-- C5 counterexample: `NewCache` only sorts the city blocks, so loading two
overlapping source rows leaves adjacent entries with
`entry[0].IpEnd ≥ entry[1].IpStart` — the no-overlap half of the claimed
invariant fails on this input. -/
theorem newCache_overlap_cex :
    ¬ disjointAdj (NewCache [] [] [] [⟨0, 10, 1⟩, ⟨5, 20, 2⟩]).CityBlock := by
  decide

/-- C5 (amended): after `NewCache`, adjacent index entries always satisfy
`IpStart i ≤ IpStart (i+1)`; when the source rows are pairwise disjoint,
nonempty ranges they additionally satisfy `IpEnd i < IpStart (i+1)`; and on
any loaded index (disjoint or not) the subsequent scan is a total function
whose break index stays within bounds — a deterministic sorted-order
search, not a crash. -/
theorem newCache_index_invariant (countries : List (String × String))
    (regions : List (String × String × String)) (locations : List (Nat × Location))
    (blocks : List Block) (x : Nat) :
    sortedStarts (NewCache countries regions locations blocks).CityBlock ∧
    (List.Pairwise rangesDisjoint blocks → (∀ b ∈ blocks, b.IpStart ≤ b.IpEnd) →
      disjointAdj (NewCache countries regions locations blocks).CityBlock) ∧
    findBreak (NewCache countries regions locations blocks).CityBlock x ≤
      (NewCache countries regions locations blocks).CityBlock.length := by
  have hsort := newCache_sorted countries regions locations blocks
  refine ⟨hsort, ?_, fb_le _ x⟩
  intro hdisj hne
  rw [newCache_cityBlock] at hsort ⊢
  refine disjointAdj_of_sorted_pairwise hsort ?_ ?_
  · intro b hb
    exact hne b ((List.perm_insertionSort blockLE blocks).mem_iff.mp hb)
  · exact ((List.perm_insertionSort blockLE blocks).pairwise_iff
      (fun h => rangesDisjoint_symm h)).mpr hdisj

/-- Concrete instantiation of the index-invariant theorem: loading the two
disjoint example blocks in reversed order yields a sorted, non-overlapping
index, and even loading two overlapping rows yields a sorted index with an
in-bounds break index. -/
theorem newCache_index_invariant_witness :
    List.Pairwise rangesDisjoint [b9, b88] ∧
    (sortedStarts (NewCache [] [] [] [b9, b88]).CityBlock ∧
     disjointAdj (NewCache [] [] [] [b9, b88]).CityBlock ∧
     findBreak (NewCache [] [] [] [b9, b88]).CityBlock (octets 8 8 8 8) ≤
       (NewCache [] [] [] [b9, b88]).CityBlock.length) ∧
    (sortedStarts (NewCache [] [] [] [⟨0, 10, 1⟩, ⟨5, 20, 2⟩]).CityBlock ∧
     findBreak (NewCache [] [] [] [⟨0, 10, 1⟩, ⟨5, 20, 2⟩]).CityBlock 7 ≤
       (NewCache [] [] [] [⟨0, 10, 1⟩, ⟨5, 20, 2⟩]).CityBlock.length) :=
  ⟨by decide,
   ⟨(newCache_index_invariant [] [] [] [b9, b88] (octets 8 8 8 8)).1,
    (newCache_index_invariant [] [] [] [b9, b88] (octets 8 8 8 8)).2.1 (by decide) (by decide),
    (newCache_index_invariant [] [] [] [b9, b88] (octets 8 8 8 8)).2.2⟩,
   ⟨(newCache_index_invariant [] [] [] [⟨0, 10, 1⟩, ⟨5, 20, 2⟩] 7).1,
    (newCache_index_invariant [] [] [] [⟨0, 10, 1⟩, ⟨5, 20, 2⟩] 7).2.2⟩⟩

/-- C6: when the candidate range matches, a missing join target never fails
the query: a location id absent from the city-location table leaves only
the echoed address; a country code absent from the country table leaves
countryName empty with countryCode still populated; a missing
(country, region) pair leaves regionName empty with regionCode still
populated. -/
theorem query_join_miss_graceful (c : Cache) (ip nIP : Nat) (b : Block) (city : Location)
    (hs : sortedStarts c.CityBlock) (hd : disjointAdj c.CityBlock)
    (hr : isReserved ip = false) (hm : b ∈ c.CityBlock)
    (h1 : b.IpStart ≤ nIP) (h2 : nIP ≤ b.IpEnd) :
    (lookupA c.CityLocation b.LocId = none → c.Query ip nIP = { Ip := ipString ip }) ∧
    (lookupA c.CityLocation b.LocId = some city →
      (lookupA c.Country city.CountryCode = none →
        (c.Query ip nIP).CountryName = "" ∧
        (c.Query ip nIP).CountryCode = city.CountryCode) ∧
      (lookupA c.Region ⟨city.CountryCode, city.RegionCode⟩ = none →
        (c.Query ip nIP).RegionName = "" ∧
        (c.Query ip nIP).RegionCode = city.RegionCode)) := by
  rw [query_eq_update c ip nIP b hs hd hr hm h1 h2]
  constructor
  · intro hnone
    simp [Cache.Update, hnone]
  · intro hcity
    constructor
    · intro hcn
      simp [Cache.Update, hcity, hcn]
    · intro hrn
      simp [Cache.Update, hcity, hrn]

/-- Concrete instantiation of the graceful-join-miss theorem on
`exCacheMiss`, whose only location misses both the country and the region
table. -/
theorem query_join_miss_graceful_witness :
    lookupA exCacheMiss.CityLocation b88.LocId = some locMiss ∧
    lookupA exCacheMiss.Country locMiss.CountryCode = none ∧
    ((exCacheMiss.Query (octets 8 8 8 8) (octets 8 8 8 8)).CountryName = "" ∧
     (exCacheMiss.Query (octets 8 8 8 8) (octets 8 8 8 8)).CountryCode = locMiss.CountryCode) ∧
    ((exCacheMiss.Query (octets 8 8 8 8) (octets 8 8 8 8)).RegionName = "" ∧
     (exCacheMiss.Query (octets 8 8 8 8) (octets 8 8 8 8)).RegionCode = locMiss.RegionCode) :=
  ⟨by decide, by decide,
   ((query_join_miss_graceful exCacheMiss (octets 8 8 8 8) (octets 8 8 8 8) b88 locMiss
       (by decide) (by decide) (by decide) (by decide) (by decide) (by decide)).2
     (by decide)).1 (by decide),
   ((query_join_miss_graceful exCacheMiss (octets 8 8 8 8) (octets 8 8 8 8) b88 locMiss
       (by decide) (by decide) (by decide) (by decide) (by decide) (by decide)).2
     (by decide)).2 (by decide)⟩

/-- C7: for a fixed cache state, two invocations of `Query` with the same
address and the same numeric form return identical result records. -/
theorem query_deterministic (c : Cache) (ip₁ nIP₁ ip₂ nIP₂ : Nat)
    (hip : ip₁ = ip₂) (hn : nIP₁ = nIP₂) :
    c.Query ip₁ nIP₁ = c.Query ip₂ nIP₂ := by
  rw [hip, hn]

/-- Concrete instantiation of determinism on `exCache` at 8.8.8.8. -/
theorem query_deterministic_witness :
    octets 8 8 8 8 = octets 8 8 8 8 ∧
    exCache.Query (octets 8 8 8 8) (octets 8 8 8 8) =
      exCache.Query (octets 8 8 8 8) (octets 8 8 8 8) :=
  ⟨rfl, query_deterministic exCache (octets 8 8 8 8) (octets 8 8 8 8)
    (octets 8 8 8 8) (octets 8 8 8 8) rfl rfl⟩

/-- C8: `Query` has no side effect on the data model: threading the cache
state explicitly through every step (including the `Update` join, which
writes only into the fresh result record), the country, region,
city-location and city-block tables after the call are the tables before
it, and the returned record is the one `Query` computes. -/
theorem query_no_side_effects (c : Cache) (ip nIP : Nat) :
    (c.QueryS ip nIP).2.Country = c.Country ∧
    (c.QueryS ip nIP).2.Region = c.Region ∧
    (c.QueryS ip nIP).2.CityLocation = c.CityLocation ∧
    (c.QueryS ip nIP).2.CityBlock = c.CityBlock ∧
    (c.QueryS ip nIP).1 = c.Query ip nIP := by
  obtain ⟨h2, h1⟩ := queryS_spec c ip nIP
  rw [h2, h1]
  exact ⟨rfl, rfl, rfl, rfl, rfl⟩

/-- C9 counterexample: on an empty index a reserved address still yields the
reserved record, so "Query on an empty index returns the address-only
result" fails as stated for 10.0.0.1. -/
theorem query_empty_index_cex :
    Cache.Query ⟨[], [], [], []⟩ (octets 10 0 0 1) (octets 10 0 0 1) ≠
      { Ip := ipString (octets 10 0 0 1) } := by
  decide

/-- C9 (amended): the containment search is index-safe on every cache: the
candidate position `n - 1` is read only under the guard `0 < n` and then
lies within bounds, so `Query` never reads out of range; and on an empty
index a non-reserved address gets the address-only result. -/
theorem query_index_safe (c : Cache) (ip nIP : Nat) (hr : isReserved ip = false) :
    (0 < findBreak c.CityBlock nIP →
      findBreak c.CityBlock nIP - 1 < c.CityBlock.length) ∧
    (c.CityBlock = [] → c.Query ip nIP = { Ip := ipString ip }) := by
  constructor
  · intro h0
    have := fb_le c.CityBlock nIP
    omega
  · intro hempty
    simp [Cache.Query, hr, hempty, findBreak]

/-- Concrete instantiation of index safety on the empty cache at the
non-reserved address 8.8.8.8. -/
theorem query_index_safe_witness :
    isReserved (octets 8 8 8 8) = false ∧
    Cache.Query ⟨[], [], [], []⟩ (octets 8 8 8 8) (octets 8 8 8 8) =
      { Ip := ipString (octets 8 8 8 8) } :=
  ⟨by decide,
   (query_index_safe ⟨[], [], [], []⟩ (octets 8 8 8 8) (octets 8 8 8 8) (by decide)).2 rfl⟩

end FreeGeo
